import Mathlib

/-!
# User directory of `src/app.js`

A shallow embedding of the in-memory user store of `src/app.js` (the `users`
array, `nextUserId`, `currentDeleteUserId` and the handlers that mutate them)
and theorems about it.

Conventions of the embedding:

* A handler is a function from the store state and the values it reads from
  the page (form fields, the clock, `Math.random`) to the new state and the
  toast it shows. DOM rendering is left out.
* JavaScript strings are `String`; `===` on strings is equality.
* Ids are natural numbers. `nextUserId++` is exact on JavaScript numbers
  below `2 ^ 53`, which the embedding takes for granted.
* `createdAt` / `updatedAt` hold the instant, in milliseconds since the Unix
  epoch, whose ISO-8601 text `new Date().toISOString()` produces; the clock
  reading is an input of the handler.
* Each handler awaits `delay(..)` before its `try` block touches the store, so
  the block runs as one atomic step. `confirmDelete` tests
  `currentDeleteUserId` before the delay and uses it after; the part after the
  delay is `confirmDeleteAfterDelay`.
-/

namespace UserCrud

/-! ## Data model -/

/-- One element of the `users` array (`app.js` lines 2-43). -/
structure User where
  id : Nat
  username : String
  email : String
  password : String
  fullName : String
  role : String
  createdAt : Nat
  updatedAt : Nat
  deriving DecidableEq

/-- The module-level mutable variables: `users`, `currentDeleteUserId`
(`none` is `null`) and `nextUserId`. -/
structure State where
  users : List User
  currentDeleteUserId : Option Nat
  nextUserId : Nat
  deriving DecidableEq

/-- The arguments of one `showToast(message, type)` call. -/
structure Toast where
  message : String
  type : String
  deriving DecidableEq

/-- The values of the add-user form fields read by `handleAddUser`. -/
structure AddForm where
  username : String
  email : String
  password : String
  fullName : String
  role : String
  deriving DecidableEq

/-- The values of the update-user form fields read by `handleUpdateUser`. -/
structure UpdateForm where
  username : String
  email : String
  fullName : String
  role : String
  password : String
  deriving DecidableEq

/-- The outcome of the two `Math.random()` calls of `generateHashedPassword`:
`pick` is `Math.floor(Math.random() * algorithms.length)` and `text` is
`Math.random().toString(36)`. -/
structure Draws where
  pick : Fin 2
  text : String
  deriving DecidableEq

/-- The initial value of `users`. -/
def seedUsers : List User :=
  [ { id := 1, username := "admin", email := "admin@example.com",
      password := "$argon2id$v=19$m=65536,t=3,p=2$abc123def456",
      fullName := "System Administrator", role := "admin",
      createdAt := 1705314600000, updatedAt := 1705314600000 },
    { id := 2, username := "jdoe", email := "john.doe@example.com",
      password := "$bcrypt$2b$12$xyz789uvw012",
      fullName := "John Doe", role := "user",
      createdAt := 1708438500000, updatedAt := 1708595100000 },
    { id := 3, username := "moderator1", email := "mod@example.com",
      password := "$argon2id$v=19$m=65536,t=3,p=2$def456ghi789",
      fullName := "Jane Smith", role := "moderator",
      createdAt := 1710069600000, updatedAt := 1710069600000 },
    { id := 4, username := "testuser", email := "test@example.com",
      password := "$bcrypt$2b$12$mno345pqr678",
      fullName := "Test User", role := "user",
      createdAt := 1711382400000, updatedAt := 1711382400000 } ]

/-- The state at page load: the four seed users, `currentDeleteUserId = null`,
`nextUserId = 5`. -/
def seedState : State :=
  { users := seedUsers, currentDeleteUserId := none, nextUserId := 5 }

/-! ## Array and string primitives -/

/-- The array method `findIndex`; `none` stands for `-1`. -/
def findIndex {α : Type} (p : α → Bool) : List α → Option Nat
  | [] => none
  | x :: xs => if p x then some 0 else (findIndex p xs).map (· + 1)

/-- The assignment `xs[i] = f(xs[i])` at an index inside the array. -/
def modifyAt {α : Type} (f : α → α) : List α → Nat → List α
  | [], _ => []
  | x :: xs, 0 => f x :: xs
  | x :: xs, i + 1 => x :: modifyAt f xs i

/-- The string method `substr(start, length)`. -/
def substr (s : String) (start length : Nat) : String :=
  String.mk ((s.data.drop start).take length)

/-- The string method `includes`. -/
def includes (s sub : String) : Bool :=
  s.data.tails.any (fun t => sub.data.isPrefixOf t)

/-- The number of UTF-16 code units of a character. -/
def utf16Units (c : Char) : Nat :=
  if c.toNat < 65536 then 1 else 2

/-- The `length` property of a string: its number of UTF-16 code units. -/
def jsLength (s : String) : Nat :=
  (s.data.map utf16Units).sum

/-- The characters matched by `\s` and removed by `trim`: ECMAScript white
space and line terminators. -/
def isJsSpace (c : Char) : Bool :=
  let n := c.toNat
  n == 9 || n == 10 || n == 11 || n == 12 || n == 13 || n == 32 || n == 160 ||
  n == 5760 || (8192 ≤ n && n ≤ 8202) || n == 8232 || n == 8233 || n == 8239 ||
  n == 8287 || n == 12288 || n == 65279

/-- The string method `trim`. -/
def trim (s : String) : String :=
  String.mk ((s.data.dropWhile isJsSpace).reverse.dropWhile isJsSpace).reverse

/-- The character class `[^\s@]`. -/
def notSpaceAt (c : Char) : Bool :=
  !isJsSpace c && c != '@'

/-- Whether the characters match `[^\s@]+$`. -/
def matchesTld (cs : List Char) : Bool :=
  !cs.isEmpty && cs.all notSpaceAt

/-- Whether the characters match `[^\s@]+\.[^\s@]+$`: some dot splits them
into two non-empty runs of `[^\s@]`. -/
def matchesDomain (cs : List Char) : Bool :=
  (List.range cs.length).any fun i =>
    0 < i && cs.get? i == some '.' && (cs.take i).all notSpaceAt &&
      matchesTld (cs.drop (i + 1))

/-- The test of `emailRegex = /^[^\s@]+@[^\s@]+\.[^\s@]+$/`
(`validateForm`, line 652). -/
def emailRegexTest (value : String) : Bool :=
  let cs := value.data
  (List.range cs.length).any fun i =>
    0 < i && cs.get? i == some '@' && (cs.take i).all notSpaceAt &&
      matchesDomain (cs.drop (i + 1))

/-! ## Operations -/

/-- The `algorithms` array of `generateHashedPassword`. -/
def algorithms : List String :=
  ["$bcrypt$2b$12$", "$argon2id$v=19$m=65536,t=3,p=2$"]

/-- The function `generateHashedPassword(password)` (lines 547-553), with the outcome of
its two random draws as an argument. The password itself is not used. -/
def generateHashedPassword (_password : String) (rnd : Draws) : String :=
  let algorithm := algorithms.getD rnd.pick.val ""
  let hash := substr rnd.text 2 12
  algorithm ++ hash

/-- The try block of `handleAddUser` (lines 240-267) and the toast it ends
with. `now1` and `now2` are the two clock readings taken for `createdAt` and
`updatedAt`. Building `userData` evaluates `nextUserId++` before the
uniqueness checks run. -/
def handleAddUser (s : State) (form : AddForm) (rnd : Draws) (now1 now2 : Nat) :
    State × Toast :=
  let userData : User :=
    { id := s.nextUserId
      username := form.username
      email := form.email
      password := generateHashedPassword form.password rnd
      fullName := form.fullName
      role := form.role
      createdAt := now1
      updatedAt := now2 }
  let s1 : State := { s with nextUserId := s.nextUserId + 1 }
  if s1.users.any (fun user => user.username == userData.username) then
    (s1, ⟨"Username already exists", "error"⟩)
  else if s1.users.any (fun user => user.email == userData.email) then
    (s1, ⟨"Email already exists", "error"⟩)
  else
    ({ s1 with users := s1.users ++ [userData] }, ⟨"User created successfully!", "success"⟩)

/-- The object spread `{ ...user, ...updatedData }` of line 353: `updatedData`
carries `username`, `email`, `fullName`, `role`, `updatedAt` and, when the
password field is not empty, `password`. -/
def mergeUpdate (form : UpdateForm) (rnd : Draws) (now : Nat) (user : User) : User :=
  { user with
    username := form.username
    email := form.email
    fullName := form.fullName
    role := form.role
    updatedAt := now
    password :=
      if form.password ≠ "" then generateHashedPassword form.password rnd
      else user.password }

/-- The try block of `handleUpdateUser` (lines 324-360) and the toast it ends
with. `userId` is the parsed value of the user select. -/
def handleUpdateUser (s : State) (userId : Nat) (form : UpdateForm) (rnd : Draws)
    (now : Nat) : State × Toast :=
  match findIndex (fun u => u.id == userId) s.users with
  | none => (s, ⟨"User not found", "error"⟩)
  | some userIndex =>
    if s.users.any (fun user => user.id != userId && user.username == form.username) then
      (s, ⟨"Username already exists", "error"⟩)
    else if s.users.any (fun user => user.id != userId && user.email == form.email) then
      (s, ⟨"Email already exists", "error"⟩)
    else
      ({ s with users := modifyAt (mergeUpdate form rnd now) s.users userIndex },
        ⟨"User updated successfully!", "success"⟩)

/-- The function `deleteUser(userId)` (lines 425-438): it remembers the id when a user with it
exists, does nothing otherwise. It shows no toast. -/
def deleteUser (s : State) (userId : Nat) : State :=
  match s.users.find? (fun u => u.id == userId) with
  | some _ => { s with currentDeleteUserId := some userId }
  | none => s

/-- The function `closeDeleteModal()` (lines 470-476). -/
def closeDeleteModal (s : State) : State :=
  { s with currentDeleteUserId := none }

/-- The truth value JavaScript gives `currentDeleteUserId` in
`if (currentDeleteUserId)`: `null` and `0` are false. -/
def truthy : Option Nat → Bool
  | none => false
  | some n => n != 0

/-- The part of `confirmDelete` after `await delay(1000)` (lines 449-465).
Reading `deletedUser.username` of a missing element would throw after the
splice and `closeDeleteModal()`, which the catch block reports. -/
def confirmDeleteAfterDelay (s : State) : State × Option Toast :=
  match findIndex (fun u => some u.id == s.currentDeleteUserId) s.users with
  | some userIndex =>
    let s1 := closeDeleteModal { s with users := s.users.eraseIdx userIndex }
    match s.users.get? userIndex with
    | some deletedUser =>
      (s1, some ⟨"User \"" ++ deletedUser.username ++ "\" deleted successfully!", "success"⟩)
    | none => (s1, some ⟨"Failed to delete user", "error"⟩)
  | none => (s, none)

/-- The function `confirmDelete()` (lines 441-467) when nothing else runs during its
delay. -/
def confirmDelete (s : State) : State × Option Toast :=
  if truthy s.currentDeleteUserId then confirmDeleteAfterDelay s else (s, none)

/-- The `type` and `id` attributes and the `value` of the input element handed
to `validateForm`. -/
structure Field where
  type : String
  id : String
  value : String
  deriving DecidableEq

/-- The return value of `validateForm(input)` (lines 643-668). It runs on the
`input` events of both forms; no handler reads what it returns. -/
def validateForm (input : Field) : Bool :=
  let value := trim input.value
  if input.type == "email" && value != "" && !emailRegexTest value then false
  else if input.type == "password" && value != "" && includes input.id "add"
      && decide (jsLength value < 8) then false
  else true

/-! ## Runs of the store -/

/-- One event that touches the store. -/
inductive Op where
  | addUser (form : AddForm) (rnd : Draws) (now1 now2 : Nat)
  | updateUser (userId : Nat) (form : UpdateForm) (rnd : Draws) (now : Nat)
  | deleteUser (userId : Nat)
  | confirmDelete
  | confirmDeleteAfterDelay
  | closeDeleteModal
  deriving DecidableEq

/-- The state after one event. -/
def step (s : State) : Op → State
  | .addUser form rnd now1 now2 => (handleAddUser s form rnd now1 now2).1
  | .updateUser userId form rnd now => (handleUpdateUser s userId form rnd now).1
  | .deleteUser userId => deleteUser s userId
  | .confirmDelete => (confirmDelete s).1
  | .confirmDeleteAfterDelay => (confirmDeleteAfterDelay s).1
  | .closeDeleteModal => closeDeleteModal s

/-- The state after a sequence of events, the first one first. -/
def run (s : State) (ops : List Op) : State :=
  ops.foldl step s

/-! ## The invariant of the store -/

/-- The record `handleAddUser` builds from the form. -/
def newUser (s : State) (form : AddForm) (rnd : Draws) (now1 now2 : Nat) : User :=
  { id := s.nextUserId
    username := form.username
    email := form.email
    password := generateHashedPassword form.password rnd
    fullName := form.fullName
    role := form.role
    createdAt := now1
    updatedAt := now2 }

/-- Two records differ in id, username and email. -/
def Apart (a b : User) : Prop :=
  a.id ≠ b.id ∧ a.username ≠ b.username ∧ a.email ≠ b.email

/-- The invariant: records are pairwise apart, every id is positive and
below `nextUserId`, and `nextUserId` is positive. -/
def Inv (s : State) : Prop :=
  s.users.Pairwise Apart ∧ (∀ u ∈ s.users, 0 < u.id ∧ u.id < s.nextUserId) ∧
    0 < s.nextUserId

/-! ## Concrete inputs -/

/-- A create form whose username and email no seed user holds. -/
def tmpForm : AddForm :=
  ⟨"tmp", "tmp@x.com", "longenough", "Tmp", "user"⟩

/-- A run that creates user 5 and deletes it again. -/
def tmpRun : List Op :=
  [Op.addUser tmpForm ⟨1, "0.abc"⟩ 10 10, Op.deleteUser 5, Op.confirmDelete]

/-- A run that renames user 2 at the clock reading 1762387200000. -/
def renameRun : List Op :=
  [Op.updateUser 2 ⟨"jdoe", "john.doe@example.com", "Johnny Doe", "user", ""⟩ ⟨0, "0.i"⟩
    1762387200000]

/-! ## Helper lemmas on the array primitives -/

theorem findIndex_eq_some {α : Type} {p : α → Bool} {l : List α} {i : Nat}
    (h : findIndex p l = some i) :
    ∃ front x back, l = front ++ x :: back ∧ front.length = i ∧ p x = true ∧
      ∀ y ∈ front, p y = false := by
  induction l generalizing i with
  | nil => simp [findIndex] at h
  | cons a l ih =>
    unfold findIndex at h
    by_cases hp : p a = true
    · simp only [hp, if_true, Option.some.injEq] at h
      exact ⟨[], a, l, rfl, by simpa using h, hp, by simp⟩
    · simp only [hp, Bool.false_eq_true, if_false, Option.map_eq_some'] at h
      obtain ⟨j, hj, rfl⟩ := h
      obtain ⟨front, x, back, rfl, rfl, hx, hfront⟩ := ih hj
      refine ⟨a :: front, x, back, rfl, rfl, hx, ?_⟩
      intro y hy
      rcases List.mem_cons.1 hy with rfl | hy
      · simpa using hp
      · exact hfront y hy

theorem findIndex_eq_none {α : Type} {p : α → Bool} {l : List α} :
    findIndex p l = none ↔ ∀ y ∈ l, p y = false := by
  induction l with
  | nil => simp [findIndex]
  | cons a l ih =>
    unfold findIndex
    by_cases hp : p a = true
    · simp [hp]
    · simp [hp, ih]

theorem findIndex_isSome_of_mem {α : Type} {p : α → Bool} {l : List α} {x : α}
    (hx : x ∈ l) (hp : p x = true) : ∃ i, findIndex p l = some i := by
  cases h : findIndex p l with
  | some i => exact ⟨i, rfl⟩
  | none =>
    have := findIndex_eq_none.1 h x hx
    simp [hp] at this

theorem modifyAt_append_length {α : Type} (f : α → α) (front : List α) (x : α)
    (back : List α) :
    modifyAt f (front ++ x :: back) front.length = front ++ f x :: back := by
  induction front with
  | nil => rfl
  | cons a front ih => simp [modifyAt, ih]

theorem eraseIdx_append_length {α : Type} (front : List α) (x : α) (back : List α) :
    (front ++ x :: back).eraseIdx front.length = front ++ back := by
  induction front with
  | nil => rfl
  | cons a front ih => simp [List.eraseIdx, ih]

theorem get?_append_length {α : Type} (front : List α) (x : α) (back : List α) :
    (front ++ x :: back).get? front.length = some x := by
  induction front with
  | nil => rfl
  | cons a front ih => simpa using ih

/-! ## What each handler does, case by case -/

theorem handleAddUser_of_username {s : State} {form : AddForm} (rnd : Draws)
    (now1 now2 : Nat) (h : ∃ u ∈ s.users, u.username = form.username) :
    handleAddUser s form rnd now1 now2 =
      ({ s with nextUserId := s.nextUserId + 1 }, ⟨"Username already exists", "error"⟩) := by
  have hany : s.users.any (fun user => user.username == form.username) = true := by
    obtain ⟨u, hu, he⟩ := h
    exact List.any_eq_true.2 ⟨u, hu, by simp [he]⟩
  simp [handleAddUser, hany]

theorem handleAddUser_of_email {s : State} {form : AddForm} (rnd : Draws)
    (now1 now2 : Nat) (hn : ∀ u ∈ s.users, u.username ≠ form.username)
    (h : ∃ u ∈ s.users, u.email = form.email) :
    handleAddUser s form rnd now1 now2 =
      ({ s with nextUserId := s.nextUserId + 1 }, ⟨"Email already exists", "error"⟩) := by
  have hname : s.users.any (fun user => user.username == form.username) = false := by
    rw [List.any_eq_false]
    intro u hu
    simpa using hn u hu
  have hany : s.users.any (fun user => user.email == form.email) = true := by
    obtain ⟨u, hu, he⟩ := h
    exact List.any_eq_true.2 ⟨u, hu, by simp [he]⟩
  simp [handleAddUser, hname, hany]

theorem handleAddUser_of_fresh {s : State} {form : AddForm} (rnd : Draws)
    (now1 now2 : Nat) (hn : ∀ u ∈ s.users, u.username ≠ form.username)
    (he : ∀ u ∈ s.users, u.email ≠ form.email) :
    handleAddUser s form rnd now1 now2 =
      ({ s with users := s.users ++ [newUser s form rnd now1 now2],
                nextUserId := s.nextUserId + 1 },
        ⟨"User created successfully!", "success"⟩) := by
  have hname : s.users.any (fun user => user.username == form.username) = false := by
    rw [List.any_eq_false]
    intro u hu
    simpa using hn u hu
  have hmail : s.users.any (fun user => user.email == form.email) = false := by
    rw [List.any_eq_false]
    intro u hu
    simpa using he u hu
  simp [handleAddUser, hname, hmail, newUser]

/-- The three outcomes of `handleAddUser`. -/
theorem handleAddUser_cases (s : State) (form : AddForm) (rnd : Draws) (now1 now2 : Nat) :
    ((∃ u ∈ s.users, u.username = form.username) ∧
      handleAddUser s form rnd now1 now2 =
        ({ s with nextUserId := s.nextUserId + 1 }, ⟨"Username already exists", "error"⟩)) ∨
    ((∃ u ∈ s.users, u.email = form.email) ∧
      handleAddUser s form rnd now1 now2 =
        ({ s with nextUserId := s.nextUserId + 1 }, ⟨"Email already exists", "error"⟩)) ∨
    ((∀ u ∈ s.users, u.username ≠ form.username) ∧ (∀ u ∈ s.users, u.email ≠ form.email) ∧
      handleAddUser s form rnd now1 now2 =
        ({ s with users := s.users ++ [newUser s form rnd now1 now2],
                  nextUserId := s.nextUserId + 1 },
          ⟨"User created successfully!", "success"⟩)) := by
  by_cases h1 : ∃ u ∈ s.users, u.username = form.username
  · exact Or.inl ⟨h1, handleAddUser_of_username rnd now1 now2 h1⟩
  · have hn : ∀ u ∈ s.users, u.username ≠ form.username := fun u hu hc => h1 ⟨u, hu, hc⟩
    by_cases h2 : ∃ u ∈ s.users, u.email = form.email
    · exact Or.inr (Or.inl ⟨h2, handleAddUser_of_email rnd now1 now2 hn h2⟩)
    · have he : ∀ u ∈ s.users, u.email ≠ form.email := fun u hu hc => h2 ⟨u, hu, hc⟩
      exact Or.inr (Or.inr ⟨hn, he, handleAddUser_of_fresh rnd now1 now2 hn he⟩)

theorem handleUpdateUser_of_absent {s : State} {userId : Nat} (form : UpdateForm)
    (rnd : Draws) (now : Nat) (h : ∀ u ∈ s.users, u.id ≠ userId) :
    handleUpdateUser s userId form rnd now = (s, ⟨"User not found", "error"⟩) := by
  have hnone : findIndex (fun u : User => u.id == userId) s.users = none := by
    rw [findIndex_eq_none]
    intro u hu
    simpa using h u hu
  simp [handleUpdateUser, hnone]

theorem handleUpdateUser_of_username {s : State} {userId : Nat} {form : UpdateForm}
    (rnd : Draws) (now : Nat) (hex : ∃ u ∈ s.users, u.id = userId)
    (h : ∃ w ∈ s.users, w.id ≠ userId ∧ w.username = form.username) :
    handleUpdateUser s userId form rnd now = (s, ⟨"Username already exists", "error"⟩) := by
  obtain ⟨u, hu, hid⟩ := hex
  obtain ⟨i, hi⟩ := findIndex_isSome_of_mem (p := fun u : User => u.id == userId) hu
    (by simp [hid])
  have hany : s.users.any
      (fun user => user.id != userId && user.username == form.username) = true := by
    obtain ⟨w, hw, hne, hname⟩ := h
    exact List.any_eq_true.2 ⟨w, hw, by simp [hne, hname]⟩
  simp [handleUpdateUser, hi, hany]

theorem handleUpdateUser_of_email {s : State} {userId : Nat} {form : UpdateForm}
    (rnd : Draws) (now : Nat) (hex : ∃ u ∈ s.users, u.id = userId)
    (hn : ∀ w ∈ s.users, w.id ≠ userId → w.username ≠ form.username)
    (h : ∃ w ∈ s.users, w.id ≠ userId ∧ w.email = form.email) :
    handleUpdateUser s userId form rnd now = (s, ⟨"Email already exists", "error"⟩) := by
  obtain ⟨u, hu, hid⟩ := hex
  obtain ⟨i, hi⟩ := findIndex_isSome_of_mem (p := fun u : User => u.id == userId) hu
    (by simp [hid])
  have hname : s.users.any
      (fun user => user.id != userId && user.username == form.username) = false := by
    rw [List.any_eq_false]
    intro w hw
    have := hn w hw
    simp only [Bool.and_eq_true, bne_iff_ne, beq_iff_eq, not_and]
    exact this
  have hany : s.users.any
      (fun user => user.id != userId && user.email == form.email) = true := by
    obtain ⟨w, hw, hne, hmail⟩ := h
    exact List.any_eq_true.2 ⟨w, hw, by simp [hne, hmail]⟩
  simp [handleUpdateUser, hi, hname, hany]

theorem handleUpdateUser_of_free (s : State) (userId : Nat) (form : UpdateForm)
    (rnd : Draws) (now : Nat) (hex : ∃ u ∈ s.users, u.id = userId)
    (hn : ∀ w ∈ s.users, w.id ≠ userId → w.username ≠ form.username)
    (he : ∀ w ∈ s.users, w.id ≠ userId → w.email ≠ form.email) :
    ∃ front u back, s.users = front ++ u :: back ∧ u.id = userId ∧
      (∀ y ∈ front, y.id ≠ userId) ∧
      handleUpdateUser s userId form rnd now =
        ({ s with users := front ++ mergeUpdate form rnd now u :: back },
          ⟨"User updated successfully!", "success"⟩) := by
  obtain ⟨u, hu, hid⟩ := hex
  obtain ⟨i, hi⟩ := findIndex_isSome_of_mem (p := fun u : User => u.id == userId) hu
    (by simp [hid])
  obtain ⟨front, x, back, hsplit, hlen, hx, hfront⟩ := findIndex_eq_some hi
  have hname : s.users.any
      (fun user => user.id != userId && user.username == form.username) = false := by
    rw [List.any_eq_false]
    intro w hw
    have := hn w hw
    simp only [Bool.and_eq_true, bne_iff_ne, beq_iff_eq, not_and]
    exact this
  have hmail : s.users.any
      (fun user => user.id != userId && user.email == form.email) = false := by
    rw [List.any_eq_false]
    intro w hw
    have := he w hw
    simp only [Bool.and_eq_true, bne_iff_ne, beq_iff_eq, not_and]
    exact this
  refine ⟨front, x, back, hsplit, by simpa using hx, ?_, ?_⟩
  · intro y hy
    simpa using hfront y hy
  · have hmod : modifyAt (mergeUpdate form rnd now) s.users i =
        front ++ mergeUpdate form rnd now x :: back := by
      rw [hsplit, ← hlen, modifyAt_append_length]
    simp [handleUpdateUser, hi, hname, hmail, hmod]

/-- The four outcomes of `handleUpdateUser`. -/
theorem handleUpdateUser_cases (s : State) (userId : Nat) (form : UpdateForm)
    (rnd : Draws) (now : Nat) :
    handleUpdateUser s userId form rnd now = (s, ⟨"User not found", "error"⟩) ∨
    handleUpdateUser s userId form rnd now = (s, ⟨"Username already exists", "error"⟩) ∨
    handleUpdateUser s userId form rnd now = (s, ⟨"Email already exists", "error"⟩) ∨
    ((∀ w ∈ s.users, w.id ≠ userId → w.username ≠ form.username) ∧
     (∀ w ∈ s.users, w.id ≠ userId → w.email ≠ form.email) ∧
     ∃ front u back, s.users = front ++ u :: back ∧ u.id = userId ∧
      (∀ y ∈ front, y.id ≠ userId) ∧
      handleUpdateUser s userId form rnd now =
        ({ s with users := front ++ mergeUpdate form rnd now u :: back },
          ⟨"User updated successfully!", "success"⟩)) := by
  by_cases hex : ∃ u ∈ s.users, u.id = userId
  · by_cases h1 : ∃ w ∈ s.users, w.id ≠ userId ∧ w.username = form.username
    · exact Or.inr (Or.inl (handleUpdateUser_of_username rnd now hex h1))
    · have hn : ∀ w ∈ s.users, w.id ≠ userId → w.username ≠ form.username :=
        fun w hw hne hc => h1 ⟨w, hw, hne, hc⟩
      by_cases h2 : ∃ w ∈ s.users, w.id ≠ userId ∧ w.email = form.email
      · exact Or.inr (Or.inr (Or.inl (handleUpdateUser_of_email rnd now hex hn h2)))
      · have he : ∀ w ∈ s.users, w.id ≠ userId → w.email ≠ form.email :=
          fun w hw hne hc => h2 ⟨w, hw, hne, hc⟩
        exact Or.inr (Or.inr (Or.inr ⟨hn, he,
          handleUpdateUser_of_free s userId form rnd now hex hn he⟩))
  · exact Or.inl (handleUpdateUser_of_absent form rnd now
      (fun u hu hc => hex ⟨u, hu, hc⟩))

theorem deleteUser_of_mem {s : State} {userId : Nat} (h : ∃ u ∈ s.users, u.id = userId) :
    deleteUser s userId = { s with currentDeleteUserId := some userId } := by
  obtain ⟨u, hu, hid⟩ := h
  cases hf : s.users.find? (fun u => u.id == userId) with
  | some v => simp [deleteUser, hf]
  | none =>
    have := List.find?_eq_none.1 hf u hu
    simp [hid] at this

theorem deleteUser_of_absent {s : State} {userId : Nat} (h : ∀ u ∈ s.users, u.id ≠ userId) :
    deleteUser s userId = s := by
  have hf : s.users.find? (fun u => u.id == userId) = none := by
    rw [List.find?_eq_none]
    intro u hu
    simpa using h u hu
  simp [deleteUser, hf]

theorem confirmDeleteAfterDelay_of_absent {s : State}
    (h : ∀ u ∈ s.users, some u.id ≠ s.currentDeleteUserId) :
    confirmDeleteAfterDelay s = (s, none) := by
  have hnone : findIndex (fun u : User => some u.id == s.currentDeleteUserId) s.users
      = none := by
    rw [findIndex_eq_none]
    intro u hu
    simpa using h u hu
  simp [confirmDeleteAfterDelay, hnone]

theorem confirmDeleteAfterDelay_of_mem {s : State}
    (h : ∃ u ∈ s.users, some u.id = s.currentDeleteUserId) :
    ∃ front u back, s.users = front ++ u :: back ∧ some u.id = s.currentDeleteUserId ∧
      (∀ y ∈ front, some y.id ≠ s.currentDeleteUserId) ∧
      confirmDeleteAfterDelay s =
        ({ s with users := front ++ back, currentDeleteUserId := none },
          some ⟨"User \"" ++ u.username ++ "\" deleted successfully!", "success"⟩) := by
  obtain ⟨u, hu, hid⟩ := h
  obtain ⟨i, hi⟩ := findIndex_isSome_of_mem
    (p := fun u : User => some u.id == s.currentDeleteUserId) hu (by simp [hid])
  obtain ⟨front, x, back, hsplit, hlen, hx, hfront⟩ := findIndex_eq_some hi
  refine ⟨front, x, back, hsplit, by simpa using hx, ?_, ?_⟩
  · intro y hy
    simpa using hfront y hy
  · have herase : s.users.eraseIdx i = front ++ back := by
      rw [hsplit, ← hlen, eraseIdx_append_length]
    have hget : s.users[i]? = some x := by
      rw [← List.get?_eq_getElem?, hsplit, ← hlen, get?_append_length]
    simp [confirmDeleteAfterDelay, hi, herase, hget, closeDeleteModal]

/-- The two outcomes of the part of `confirmDelete` after its delay. -/
theorem confirmDeleteAfterDelay_cases (s : State) :
    confirmDeleteAfterDelay s = (s, none) ∨
    ∃ front u back, s.users = front ++ u :: back ∧ some u.id = s.currentDeleteUserId ∧
      (∀ y ∈ front, some y.id ≠ s.currentDeleteUserId) ∧
      confirmDeleteAfterDelay s =
        ({ s with users := front ++ back, currentDeleteUserId := none },
          some ⟨"User \"" ++ u.username ++ "\" deleted successfully!", "success"⟩) := by
  by_cases h : ∃ u ∈ s.users, some u.id = s.currentDeleteUserId
  · exact Or.inr (confirmDeleteAfterDelay_of_mem h)
  · exact Or.inl (confirmDeleteAfterDelay_of_absent (fun u hu hc => h ⟨u, hu, hc⟩))

/-! ## The invariant is kept by every event -/

theorem inv_seedState : Inv seedState := by
  refine ⟨?_, ?_, ?_⟩
  · simp [seedState, seedUsers, Apart]
  · simp [seedState, seedUsers]
  · simp [seedState]

theorem inv_handleAddUser {s : State} (h : Inv s) (form : AddForm) (rnd : Draws)
    (now1 now2 : Nat) : Inv (handleAddUser s form rnd now1 now2).1 := by
  obtain ⟨hp, hb, hpos⟩ := h
  have hweak : ∀ u ∈ s.users, 0 < u.id ∧ u.id < s.nextUserId + 1 :=
    fun u hu => ⟨(hb u hu).1, Nat.lt_succ_of_lt (hb u hu).2⟩
  rcases handleAddUser_cases s form rnd now1 now2 with ⟨-, he⟩ | ⟨-, he⟩ | ⟨hn, hm, he⟩
  · rw [he]; exact ⟨hp, hweak, Nat.succ_pos _⟩
  · rw [he]; exact ⟨hp, hweak, Nat.succ_pos _⟩
  · rw [he]
    refine ⟨?_, ?_, Nat.succ_pos _⟩
    · show (s.users ++ [newUser s form rnd now1 now2]).Pairwise Apart
      rw [List.pairwise_append]
      refine ⟨hp, List.pairwise_singleton _ _, ?_⟩
      intro a ha b hb'
      rw [List.mem_singleton] at hb'
      subst hb'
      exact ⟨Nat.ne_of_lt (hb a ha).2, hn a ha, hm a ha⟩
    · intro u hu
      have hu' : u ∈ s.users ++ [newUser s form rnd now1 now2] := hu
      rcases List.mem_append.1 hu' with hu1 | hu1
      · exact hweak u hu1
      · rw [List.mem_singleton] at hu1
        subst hu1
        exact ⟨hpos, Nat.lt_succ_self _⟩

theorem inv_handleUpdateUser {s : State} (h : Inv s) (userId : Nat) (form : UpdateForm)
    (rnd : Draws) (now : Nat) : Inv (handleUpdateUser s userId form rnd now).1 := by
  rcases handleUpdateUser_cases s userId form rnd now with he | he | he |
    ⟨hn, hm, front, u, back, hsplit, hid, -, he⟩
  · rw [he]; exact h
  · rw [he]; exact h
  · rw [he]; exact h
  · rw [he]
    obtain ⟨hp, hb, hpos⟩ := h
    rw [hsplit] at hp hb
    rw [List.pairwise_append, List.pairwise_cons] at hp
    obtain ⟨hfront, ⟨hub, hback⟩, hcross⟩ := hp
    have hmem : ∀ w, w ∈ front ∨ w ∈ back → w ∈ s.users := by
      intro w hw
      rw [hsplit]
      rcases hw with hw | hw
      · exact List.mem_append_left _ hw
      · exact List.mem_append_right _ (List.mem_cons_of_mem _ hw)
    refine ⟨?_, ?_, hpos⟩
    · show (front ++ mergeUpdate form rnd now u :: back).Pairwise Apart
      rw [List.pairwise_append, List.pairwise_cons]
      refine ⟨hfront, ⟨?_, hback⟩, ?_⟩
      · intro b hb'
        have hne : b.id ≠ userId := fun hc => (hub b hb').1 (hid.trans hc.symm)
        exact ⟨(hub b hb').1, fun hc => hn b (hmem b (Or.inr hb')) hne hc.symm,
          fun hc => hm b (hmem b (Or.inr hb')) hne hc.symm⟩
      · intro a ha b hb'
        rcases List.mem_cons.1 hb' with rfl | hb'
        · have hne : a.id ≠ userId :=
            fun hc => (hcross a ha u (List.mem_cons_self _ _)).1 (hc.trans hid.symm)
          exact ⟨(hcross a ha u (List.mem_cons_self _ _)).1,
            hn a (hmem a (Or.inl ha)) hne, hm a (hmem a (Or.inl ha)) hne⟩
        · exact hcross a ha b (List.mem_cons_of_mem _ hb')
    · intro w hw
      have hw' : w ∈ front ++ mergeUpdate form rnd now u :: back := hw
      rcases List.mem_append.1 hw' with hw1 | hw1
      · exact hb w (List.mem_append_left _ hw1)
      · rcases List.mem_cons.1 hw1 with rfl | hw1
        · exact hb u (List.mem_append_right _ (List.mem_cons_self _ _))
        · exact hb w (List.mem_append_right _ (List.mem_cons_of_mem _ hw1))

theorem inv_deleteUser {s : State} (h : Inv s) (userId : Nat) : Inv (deleteUser s userId) := by
  unfold deleteUser
  split
  · exact h
  · exact h

theorem inv_closeDeleteModal {s : State} (h : Inv s) : Inv (closeDeleteModal s) := h

theorem inv_confirmDeleteAfterDelay {s : State} (h : Inv s) :
    Inv (confirmDeleteAfterDelay s).1 := by
  rcases confirmDeleteAfterDelay_cases s with he | ⟨front, u, back, hsplit, -, -, he⟩
  · rw [he]; exact h
  · rw [he]
    obtain ⟨hp, hb, hpos⟩ := h
    have hsub : (front ++ back).Sublist s.users := by
      rw [hsplit]
      exact List.Sublist.append_left (List.sublist_cons_self u back) front
    exact ⟨hp.sublist hsub, fun w hw => hb w (hsub.subset hw), hpos⟩

theorem inv_confirmDelete {s : State} (h : Inv s) : Inv (confirmDelete s).1 := by
  unfold confirmDelete
  split
  · exact inv_confirmDeleteAfterDelay h
  · exact h

theorem inv_step {s : State} (h : Inv s) (op : Op) : Inv (step s op) := by
  cases op with
  | addUser form rnd now1 now2 => exact inv_handleAddUser h form rnd now1 now2
  | updateUser userId form rnd now => exact inv_handleUpdateUser h userId form rnd now
  | deleteUser userId => exact inv_deleteUser h userId
  | confirmDelete => exact inv_confirmDelete h
  | confirmDeleteAfterDelay => exact inv_confirmDeleteAfterDelay h
  | closeDeleteModal => exact inv_closeDeleteModal h

theorem inv_run {s : State} (h : Inv s) (ops : List Op) : Inv (run s ops) := by
  induction ops generalizing s with
  | nil => exact h
  | cons op ops ih => exact ih (inv_step h op)

theorem run_append (s : State) (ops more : List Op) :
    run s (ops ++ more) = run (run s ops) more := by
  simp [run, List.foldl_append]

theorem nextUserId_le_step (s : State) (op : Op) : s.nextUserId ≤ (step s op).nextUserId := by
  cases op with
  | addUser form rnd now1 now2 =>
    rcases handleAddUser_cases s form rnd now1 now2 with ⟨-, he⟩ | ⟨-, he⟩ | ⟨-, -, he⟩ <;>
      simp [step, he]
  | updateUser userId form rnd now =>
    rcases handleUpdateUser_cases s userId form rnd now with he | he | he |
      ⟨-, -, front, u, back, -, -, -, he⟩ <;> simp [step, he]
  | deleteUser userId =>
    simp only [step, deleteUser]
    split <;> exact Nat.le_refl _
  | confirmDelete =>
    simp only [step, confirmDelete]
    split
    · rcases confirmDeleteAfterDelay_cases s with he | ⟨front, u, back, -, -, -, he⟩ <;>
        simp [he]
    · exact Nat.le_refl _
  | confirmDeleteAfterDelay =>
    rcases confirmDeleteAfterDelay_cases s with he | ⟨front, u, back, -, -, -, he⟩ <;>
      simp [step, he]
  | closeDeleteModal => exact Nat.le_refl _

theorem nextUserId_le_run (s : State) (ops : List Op) :
    s.nextUserId ≤ (run s ops).nextUserId := by
  induction ops generalizing s with
  | nil => exact Nat.le_refl _
  | cons op ops ih => exact Nat.le_trans (nextUserId_le_step s op) (ih (step s op))

theorem apart_symm : Symmetric Apart :=
  fun _ _ h => ⟨h.1.symm, h.2.1.symm, h.2.2.symm⟩

theorem apart_of_ne {s : State} (h : Inv s) {a b : User} (ha : a ∈ s.users)
    (hb : b ∈ s.users) (hne : a ≠ b) : Apart a b :=
  h.1.forall apart_symm ha hb hne

theorem eq_of_id_eq {s : State} (h : Inv s) {a b : User} (ha : a ∈ s.users)
    (hb : b ∈ s.users) (hid : a.id = b.id) : a = b := by
  by_contra hne
  exact (apart_of_ne h ha hb hne).1 hid

theorem handleUpdateUser_error_keeps_state (s : State) (userId : Nat) (form : UpdateForm)
    (rnd : Draws) (now : Nat)
    (h : (handleUpdateUser s userId form rnd now).2.type = "error") :
    (handleUpdateUser s userId form rnd now).1 = s := by
  rcases handleUpdateUser_cases s userId form rnd now with he | he | he |
    ⟨-, -, front, u, back, -, -, -, he⟩
  · rw [he]
  · rw [he]
  · rw [he]
  · rw [he] at h
    have hne : ("success" : String) ≠ "error" := by decide
    exact absurd h hne

theorem handleAddUser_error_keeps_users (s : State) (form : AddForm) (rnd : Draws)
    (now1 now2 : Nat) (h : (handleAddUser s form rnd now1 now2).2.type = "error") :
    (handleAddUser s form rnd now1 now2).1 = { s with nextUserId := s.nextUserId + 1 } := by
  rcases handleAddUser_cases s form rnd now1 now2 with ⟨-, he⟩ | ⟨-, he⟩ | ⟨-, -, he⟩
  · rw [he]
  · rw [he]
  · rw [he] at h
    have hne : ("success" : String) ≠ "error" := by decide
    exact absurd h hne

theorem algorithm_mem (rnd : Draws) : algorithms.getD rnd.pick.val "" ∈ algorithms := by
  obtain ⟨pick, text⟩ := rnd
  fin_cases pick <;> simp [algorithms]

theorem algorithm_ne_empty {a : String} (h : a ∈ algorithms) : a.data ≠ [] := by
  simp only [algorithms, List.mem_cons, List.mem_singleton, List.mem_nil_iff, or_false] at h
  rcases h with rfl | rfl <;> decide

theorem generateHashedPassword_data (password : String) (rnd : Draws) :
    (generateHashedPassword password rnd).data =
      (algorithms.getD rnd.pick.val "").data ++ (substr rnd.text 2 12).data := by
  simp [generateHashedPassword]

/-- The two cases in which `validateForm` returns false. -/
theorem validateForm_eq_false_iff (input : Field) :
    validateForm input = false ↔
      (input.type = "email" ∧ trim input.value ≠ "" ∧
        emailRegexTest (trim input.value) = false) ∨
      (input.type = "password" ∧ includes input.id "add" = true ∧
        trim input.value ≠ "" ∧ jsLength (trim input.value) < 8) := by
  unfold validateForm
  simp only []
  split_ifs with h1 h2
  · simp only [Bool.and_eq_true, beq_iff_eq, bne_iff_ne, Bool.not_eq_true'] at h1
    simp only [true_iff]
    exact Or.inl ⟨h1.1.1, h1.1.2, h1.2⟩
  · simp only [Bool.and_eq_true, beq_iff_eq, bne_iff_ne, decide_eq_true_eq] at h2
    simp only [true_iff]
    exact Or.inr ⟨h2.1.1.1, h2.1.2, h2.1.1.2, h2.2⟩
  · simp only [Bool.and_eq_true, beq_iff_eq, bne_iff_ne, Bool.not_eq_true',
      decide_eq_true_eq] at h1 h2
    simp only [Bool.true_eq_false, false_iff, not_or]
    exact ⟨fun h => h1 ⟨⟨h.1, h.2.1⟩, h.2.2⟩, fun h => h2 ⟨⟨⟨h.1, h.2.2.1⟩, h.2.1⟩, h.2.2.2⟩⟩

/-! ## Uniqueness of usernames and emails -/

/-- C1: in every state reached from the seed state (the four seed users,
`nextUserId = 5`) by any sequence of store events (creates, updates,
`deleteUser`, `confirmDelete`, closing the modal), no two records at different
positions of `users` share a username and no two share an email. -/
theorem unique_username_and_email (ops : List Op) :
    (run seedState ops).users.Pairwise (fun a b => a.username ≠ b.username) ∧
    (run seedState ops).users.Pairwise (fun a b => a.email ≠ b.email) := by
  have h := (inv_run inv_seedState ops).1
  exact ⟨h.imp (fun hab => hab.2.1), h.imp (fun hab => hab.2.2)⟩

/-! ## Create -/

/-- C2: in any state, a create whose username is exactly the username of an
existing user ends with the error toast `Username already exists` and leaves
the `users` list as it was. -/
theorem create_duplicate_username (s : State) (form : AddForm) (rnd : Draws)
    (now1 now2 : Nat) (h : ∃ u ∈ s.users, u.username = form.username) :
    (handleAddUser s form rnd now1 now2).2 = ⟨"Username already exists", "error"⟩ ∧
    (handleAddUser s form rnd now1 now2).1.users = s.users := by
  rw [handleAddUser_of_username rnd now1 now2 h]
  exact ⟨rfl, rfl⟩

/-- C2 at the seed state: a create with the username `jdoe`. -/
theorem create_duplicate_username_witness :
    (∃ u ∈ seedState.users, u.username = "jdoe") ∧
    (handleAddUser seedState ⟨"jdoe", "john@x.com", "longenough", "John Doe", "user"⟩
      ⟨0, "0.k3j9x0p2q8w"⟩ 1762387200000 1762387200000).2
        = ⟨"Username already exists", "error"⟩ ∧
    (handleAddUser seedState ⟨"jdoe", "john@x.com", "longenough", "John Doe", "user"⟩
      ⟨0, "0.k3j9x0p2q8w"⟩ 1762387200000 1762387200000).1.users = seedState.users :=
  ⟨by decide,
   create_duplicate_username seedState ⟨"jdoe", "john@x.com", "longenough", "John Doe", "user"⟩
     ⟨0, "0.k3j9x0p2q8w"⟩ 1762387200000 1762387200000 (by decide)⟩

/-- C3: in every state reached from the seed state, a create whose username
and email no existing user holds succeeds: it appends one record, and the id
of that record is greater than the id of every record in the list and of
every record that was in the list at any earlier point of the run, deleted
since or not. -/
theorem create_assigns_fresh_id (ops earlier : List Op) (hpre : earlier <+: ops)
    (form : AddForm) (rnd : Draws) (now1 now2 : Nat)
    (hn : ∀ u ∈ (run seedState ops).users, u.username ≠ form.username)
    (he : ∀ u ∈ (run seedState ops).users, u.email ≠ form.email) :
    ∃ created : User,
      (handleAddUser (run seedState ops) form rnd now1 now2).2
        = ⟨"User created successfully!", "success"⟩ ∧
      (handleAddUser (run seedState ops) form rnd now1 now2).1.users
        = (run seedState ops).users ++ [created] ∧
      (∀ u ∈ (run seedState ops).users, u.id < created.id) ∧
      (∀ u ∈ (run seedState earlier).users, u.id < created.id) := by
  refine ⟨newUser (run seedState ops) form rnd now1 now2, ?_, ?_, ?_, ?_⟩
  · rw [handleAddUser_of_fresh rnd now1 now2 hn he]
  · rw [handleAddUser_of_fresh rnd now1 now2 hn he]
  · intro u hu
    exact ((inv_run inv_seedState ops).2.1 u hu).2
  · intro u hu
    obtain ⟨more, rfl⟩ := hpre
    have hlt := ((inv_run inv_seedState earlier).2.1 u hu).2
    have hle := nextUserId_le_run (run seedState earlier) more
    rw [← run_append] at hle
    exact Nat.lt_of_lt_of_le hlt hle

/-- C3 on `tmpRun`: the next create gets an id above that of the deleted
record, which was in the list after the first event of the run. -/
theorem create_assigns_fresh_id_witness :
    ([Op.addUser tmpForm ⟨1, "0.abc"⟩ 10 10] <+: tmpRun) ∧
    (∀ u ∈ (run seedState tmpRun).users, u.username ≠ tmpForm.username) ∧
    (∀ u ∈ (run seedState tmpRun).users, u.email ≠ tmpForm.email) ∧
    ∃ created : User,
      (handleAddUser (run seedState tmpRun) tmpForm ⟨0, "0.xyz"⟩ 20 20).2
        = ⟨"User created successfully!", "success"⟩ ∧
      (handleAddUser (run seedState tmpRun) tmpForm ⟨0, "0.xyz"⟩ 20 20).1.users
        = (run seedState tmpRun).users ++ [created] ∧
      (∀ u ∈ (run seedState tmpRun).users, u.id < created.id) ∧
      (∀ u ∈ (run seedState [Op.addUser tmpForm ⟨1, "0.abc"⟩ 10 10]).users,
        u.id < created.id) :=
  ⟨⟨[Op.deleteUser 5, Op.confirmDelete], rfl⟩, by decide, by decide,
   create_assigns_fresh_id tmpRun [Op.addUser tmpForm ⟨1, "0.abc"⟩ 10 10]
     ⟨[Op.deleteUser 5, Op.confirmDelete], rfl⟩ tmpForm ⟨0, "0.xyz"⟩ 20 20
     (by decide) (by decide)⟩

/-- C4, refuted as stated: at the seed state `handleAddUser` accepts an empty
username, an empty email, the email `bad-email`, the five-character password
`short` and the role `root`; each create succeeds and adds a record. -/
theorem create_accepts_invalid_fields :
    (handleAddUser seedState ⟨"", "new@x.com", "longenough", "New", "user"⟩
        ⟨0, "0.abc"⟩ 20 20).2 = ⟨"User created successfully!", "success"⟩ ∧
    (handleAddUser seedState ⟨"new", "", "longenough", "New", "user"⟩
        ⟨0, "0.abc"⟩ 20 20).2 = ⟨"User created successfully!", "success"⟩ ∧
    (handleAddUser seedState ⟨"new", "bad-email", "longenough", "New", "user"⟩
        ⟨0, "0.abc"⟩ 20 20).2 = ⟨"User created successfully!", "success"⟩ ∧
    (handleAddUser seedState ⟨"new", "bad-email", "longenough", "New", "user"⟩
        ⟨0, "0.abc"⟩ 20 20).1.users.length = seedState.users.length + 1 ∧
    (handleAddUser seedState ⟨"new", "new@x.com", "short", "New", "user"⟩
        ⟨0, "0.abc"⟩ 20 20).2 = ⟨"User created successfully!", "success"⟩ ∧
    (handleAddUser seedState ⟨"new", "new@x.com", "longenough", "New", "root"⟩
        ⟨0, "0.abc"⟩ 20 20).2 = ⟨"User created successfully!", "success"⟩ := by
  decide

/-- C4 as amended: `handleAddUser` checks uniqueness only. In any state, a
create whose username and email no existing user holds succeeds and appends
the record built from the form, whatever the fields contain. The email shape
and the password length are tested by `validateForm` alone, whose result no
handler reads. It returns false in exactly two cases: for an `email` field
whose trimmed value is not empty and misses the shape, and for a `password`
field with `add` in its id whose trimmed value is not empty and shorter than
8. So it returns true for every field whose trimmed value is empty, and for
every field that is neither an `email` nor a `password` field, the role
select among them: it checks neither emptiness nor role. -/
theorem create_checks_uniqueness_only (s : State) (form : AddForm) (rnd : Draws)
    (now1 now2 : Nat) (input : Field)
    (hn : ∀ u ∈ s.users, u.username ≠ form.username)
    (he : ∀ u ∈ s.users, u.email ≠ form.email) :
    (handleAddUser s form rnd now1 now2).2 = ⟨"User created successfully!", "success"⟩ ∧
    (handleAddUser s form rnd now1 now2).1.users
      = s.users ++ [newUser s form rnd now1 now2] ∧
    (validateForm input = false ↔
      (input.type = "email" ∧ trim input.value ≠ "" ∧
        emailRegexTest (trim input.value) = false) ∨
      (input.type = "password" ∧ includes input.id "add" = true ∧
        trim input.value ≠ "" ∧ jsLength (trim input.value) < 8)) ∧
    (trim input.value = "" → validateForm input = true) ∧
    (input.type ≠ "email" → input.type ≠ "password" → validateForm input = true) := by
  rw [handleAddUser_of_fresh rnd now1 now2 hn he]
  refine ⟨rfl, rfl, validateForm_eq_false_iff input, ?_, ?_⟩
  · intro hv
    have hnot : ¬ validateForm input = false := by
      rw [validateForm_eq_false_iff]
      rintro (⟨-, h, -⟩ | ⟨-, -, h, -⟩) <;> exact h hv
    simpa using hnot
  · intro h1 h2
    have hnot : ¬ validateForm input = false := by
      rw [validateForm_eq_false_iff]
      rintro (⟨h, -⟩ | ⟨h, -⟩)
      · exact h1 h
      · exact h2 h
    simpa using hnot

/-- C4 as amended, at the seed state: a create with the email `bad-email`,
the password `short`, an empty full name and the role `root` succeeds;
`validateForm` returns false on that email field and on that password field,
and true on an empty username field and on the role field holding `root`. -/
theorem create_checks_uniqueness_only_witness :
    (handleAddUser seedState ⟨"new", "bad-email", "short", "", "root"⟩
        ⟨0, "0.i"⟩ 20 20).2 = ⟨"User created successfully!", "success"⟩ ∧
    (handleAddUser seedState ⟨"new", "bad-email", "short", "", "root"⟩
        ⟨0, "0.i"⟩ 20 20).1.users.length = 5 ∧
    validateForm ⟨"email", "add-email", "bad-email"⟩ = false ∧
    validateForm ⟨"password", "add-password", "short"⟩ = false ∧
    validateForm ⟨"text", "add-username", "  "⟩ = true ∧
    validateForm ⟨"select-one", "add-role", "root"⟩ = true :=
  ⟨(create_checks_uniqueness_only seedState ⟨"new", "bad-email", "short", "", "root"⟩
      ⟨0, "0.i"⟩ 20 20 ⟨"email", "add-email", "bad-email"⟩ (by decide) (by decide)).1,
   by
    rw [(create_checks_uniqueness_only seedState ⟨"new", "bad-email", "short", "", "root"⟩
      ⟨0, "0.i"⟩ 20 20 ⟨"email", "add-email", "bad-email"⟩ (by decide) (by decide)).2.1]
    decide,
   (create_checks_uniqueness_only seedState ⟨"new", "bad-email", "short", "", "root"⟩
      ⟨0, "0.i"⟩ 20 20 ⟨"email", "add-email", "bad-email"⟩ (by decide)
      (by decide)).2.2.1.2 (Or.inl ⟨rfl, by decide, by decide⟩),
   (create_checks_uniqueness_only seedState ⟨"new", "bad-email", "short", "", "root"⟩
      ⟨0, "0.i"⟩ 20 20 ⟨"password", "add-password", "short"⟩ (by decide)
      (by decide)).2.2.1.2 (Or.inr ⟨rfl, by decide, by decide, by decide⟩),
   (create_checks_uniqueness_only seedState ⟨"new", "bad-email", "short", "", "root"⟩
      ⟨0, "0.i"⟩ 20 20 ⟨"text", "add-username", "  "⟩ (by decide)
      (by decide)).2.2.2.1 (by decide),
   (create_checks_uniqueness_only seedState ⟨"new", "bad-email", "short", "", "root"⟩
      ⟨0, "0.i"⟩ 20 20 ⟨"select-one", "add-role", "root"⟩ (by decide)
      (by decide)).2.2.2.2 (by decide) (by decide)⟩

/-- C5 at a failing create: at the seed state a create with the username
`admin` ends with the error toast `Username already exists`, the `users` list
is as before, and `nextUserId` has moved from 5 to 6. -/
theorem failed_create_advances_nextUserId :
    (handleAddUser seedState ⟨"admin", "root@x.com", "longenough", "Root", "admin"⟩
        ⟨0, "0.abc"⟩ 20 20).2 = ⟨"Username already exists", "error"⟩ ∧
    (handleAddUser seedState ⟨"admin", "root@x.com", "longenough", "Root", "admin"⟩
        ⟨0, "0.abc"⟩ 20 20).1.users = seedState.users ∧
    seedState.nextUserId = 5 ∧
    (handleAddUser seedState ⟨"admin", "root@x.com", "longenough", "Root", "admin"⟩
        ⟨0, "0.abc"⟩ 20 20).1.nextUserId = 6 := by
  decide

/-! ## Update -/

/-- C6, refuted as stated: `updatedAt` need not advance. After `renameRun`,
which renames user 2 at the clock reading 1762387200000, a second rename at
the same reading succeeds and leaves every `updatedAt` as it was; and at the
seed state a rename of user 2 at the clock reading 5 succeeds and moves its
`updatedAt` back from 1708595100000 to 5. -/
theorem update_need_not_advance_updatedAt :
    (run seedState renameRun).users.map (fun u => (u.id, u.updatedAt))
      = [(1, 1705314600000), (2, 1762387200000), (3, 1710069600000),
         (4, 1711382400000)] ∧
    (handleUpdateUser (run seedState renameRun) 2
        ⟨"jdoe", "john.doe@example.com", "John D. Doe", "user", ""⟩ ⟨0, "0.i"⟩
        1762387200000).2 = ⟨"User updated successfully!", "success"⟩ ∧
    (handleUpdateUser (run seedState renameRun) 2
        ⟨"jdoe", "john.doe@example.com", "John D. Doe", "user", ""⟩ ⟨0, "0.i"⟩
        1762387200000).1.users.map (fun u => (u.id, u.updatedAt))
      = [(1, 1705314600000), (2, 1762387200000), (3, 1710069600000),
         (4, 1711382400000)] ∧
    (handleUpdateUser seedState 2
        ⟨"jdoe", "john.doe@example.com", "Johnny Doe", "user", ""⟩ ⟨0, "0.i"⟩
        5).2 = ⟨"User updated successfully!", "success"⟩ ∧
    (handleUpdateUser seedState 2
        ⟨"jdoe", "john.doe@example.com", "Johnny Doe", "user", ""⟩ ⟨0, "0.i"⟩
        5).1.users.map (fun u => (u.id, u.updatedAt))
      = [(1, 1705314600000), (2, 5), (3, 1710069600000), (4, 1711382400000)] := by
  decide

/-- C6 as amended: in every state reached from the seed state and for every
record `u` of `users`, an update of `u.id` that repeats the username, email
and role of `u`, gives a new full name and leaves the password field empty
succeeds at every clock reading `now`. The record that takes the place of `u`
has the id, username, email, role, `createdAt` and password hash of `u`, the
new full name, and `updatedAt` equal to `now`, whatever that reading is: it is
later than the previous `updatedAt` exactly when the reading is. -/
theorem update_fullName_only (ops : List Op) (u : User)
    (hu : u ∈ (run seedState ops).users) (fullName : String) (rnd : Draws) (now : Nat) :
    ∃ front back updated,
      (run seedState ops).users = front ++ u :: back ∧
      handleUpdateUser (run seedState ops) u.id
          ⟨u.username, u.email, fullName, u.role, ""⟩ rnd now
        = ({ run seedState ops with users := front ++ updated :: back },
            ⟨"User updated successfully!", "success"⟩) ∧
      updated.id = u.id ∧ updated.username = u.username ∧ updated.email = u.email ∧
      updated.role = u.role ∧ updated.createdAt = u.createdAt ∧
      updated.password = u.password ∧ updated.fullName = fullName ∧
      updated.updatedAt = now ∧ (u.updatedAt < updated.updatedAt ↔ u.updatedAt < now) := by
  have hinv := inv_run inv_seedState ops
  have hne : ∀ w ∈ (run seedState ops).users, w.id ≠ u.id → Apart w u :=
    fun w hw hid => apart_of_ne hinv hw hu (fun hc => hid (by rw [hc]))
  obtain ⟨front, x, back, hsplit, hid, -, he⟩ :=
    handleUpdateUser_of_free (run seedState ops) u.id
      ⟨u.username, u.email, fullName, u.role, ""⟩ rnd now ⟨u, hu, rfl⟩
      (fun w hw hid => (hne w hw hid).2.1) (fun w hw hid => (hne w hw hid).2.2)
  have hx : x ∈ (run seedState ops).users := by
    rw [hsplit]; exact List.mem_append_right _ (List.mem_cons_self _ _)
  have hxu : x = u := eq_of_id_eq hinv hx hu hid
  subst hxu
  exact ⟨front, back, _, hsplit, he, rfl, rfl, rfl, rfl, rfl, by simp [mergeUpdate], rfl, rfl,
    Iff.rfl⟩

/-- C6 as amended, at the seed state: renaming user 2 at the clock reading
1762387200000, which is later than its `updatedAt` of 1708595100000. -/
theorem update_fullName_only_witness :
    seedUsers[1] ∈ (run seedState []).users ∧
    ∃ front back updated,
      (run seedState []).users = front ++ seedUsers[1] :: back ∧
      handleUpdateUser (run seedState []) 2
          ⟨"jdoe", "john.doe@example.com", "Johnny Doe", "user", ""⟩ ⟨0, "0.i"⟩
          1762387200000
        = ({ run seedState [] with users := front ++ updated :: back },
            ⟨"User updated successfully!", "success"⟩) ∧
      updated.id = 2 ∧ updated.username = "jdoe" ∧
      updated.email = "john.doe@example.com" ∧ updated.role = "user" ∧
      updated.createdAt = 1708438500000 ∧
      updated.password = "$bcrypt$2b$12$xyz789uvw012" ∧
      updated.fullName = "Johnny Doe" ∧ updated.updatedAt = 1762387200000 ∧
      (1708595100000 < updated.updatedAt ↔ 1708595100000 < 1762387200000) :=
  ⟨by decide,
   update_fullName_only [] seedUsers[1] (by decide) "Johnny Doe" ⟨0, "0.i"⟩ 1762387200000⟩

/-- C7: in every state reached from the seed state and for every record `u`
of `users`, an update of `u.id` whose username is held by another record ends
with the error toast `Username already exists` and changes nothing, and an
update of `u.id` that keeps the username of `u` and whose email no other
record holds succeeds. -/
theorem update_username_uniqueness (ops : List Op) (u : User)
    (hu : u ∈ (run seedState ops).users) (form : UpdateForm) (rnd : Draws) (now : Nat) :
    ((∃ v ∈ (run seedState ops).users, v ≠ u ∧ v.username = form.username) →
      handleUpdateUser (run seedState ops) u.id form rnd now
        = (run seedState ops, ⟨"Username already exists", "error"⟩)) ∧
    (form.username = u.username →
      (∀ w ∈ (run seedState ops).users, w ≠ u → w.email ≠ form.email) →
      (handleUpdateUser (run seedState ops) u.id form rnd now).2
        = ⟨"User updated successfully!", "success"⟩) := by
  have hinv := inv_run inv_seedState ops
  refine ⟨?_, ?_⟩
  · rintro ⟨v, hv, hvu, hname⟩
    exact handleUpdateUser_of_username rnd now ⟨u, hu, rfl⟩
      ⟨v, hv, fun hid => hvu (eq_of_id_eq hinv hv hu hid), hname⟩
  · intro hown hmail
    obtain ⟨front, x, back, -, -, -, he⟩ :=
      handleUpdateUser_of_free (run seedState ops) u.id form
        rnd now ⟨u, hu, rfl⟩
        (fun w hw hid => by
          rw [hown]
          exact (apart_of_ne hinv hw hu (fun hc => hid (by rw [hc]))).2.1)
        (fun w hw hid => hmail w hw (fun hc => hid (by rw [hc])))
    rw [he]

/-- C7 at the seed state: user 2 cannot take the username `admin` of user 1,
and can keep `jdoe` while changing email. -/
theorem update_username_uniqueness_witness :
    handleUpdateUser (run seedState []) 2
        ⟨"admin", "john.doe@example.com", "John Doe", "user", ""⟩ ⟨0, "0.abc"⟩ 30
      = (run seedState [], ⟨"Username already exists", "error"⟩) ∧
    (handleUpdateUser (run seedState []) 2
        ⟨"jdoe", "jd@example.com", "John Doe", "user", ""⟩ ⟨0, "0.abc"⟩ 30).2
      = ⟨"User updated successfully!", "success"⟩ :=
  ⟨(update_username_uniqueness [] seedUsers[1] (by decide)
      ⟨"admin", "john.doe@example.com", "John Doe", "user", ""⟩ ⟨0, "0.abc"⟩ 30).1
      (by decide),
   (update_username_uniqueness [] seedUsers[1] (by decide)
      ⟨"jdoe", "jd@example.com", "John Doe", "user", ""⟩ ⟨0, "0.abc"⟩ 30).2
      rfl (by decide)⟩

/-- C10, refuted as stated: at the seed state an update of user 2 with the
three-character password `abc` succeeds and replaces the stored hash. -/
theorem update_accepts_short_password :
    jsLength "abc" < 8 ∧
    (handleUpdateUser seedState 2
        ⟨"jdoe", "john.doe@example.com", "John Doe", "user", "abc"⟩
        ⟨0, "0.k3j9x0p2q8wzz"⟩ 30).2 = ⟨"User updated successfully!", "success"⟩ ∧
    (handleUpdateUser seedState 2
        ⟨"jdoe", "john.doe@example.com", "John Doe", "user", "abc"⟩
        ⟨0, "0.k3j9x0p2q8wzz"⟩ 30).1.users.map (fun u => u.password)
      = ["$argon2id$v=19$m=65536,t=3,p=2$abc123def456", "$bcrypt$2b$12$k3j9x0p2q8wz",
         "$argon2id$v=19$m=65536,t=3,p=2$def456ghi789", "$bcrypt$2b$12$mno345pqr678"] := by
  decide

/-- C10 as amended: the password field of an update is never length-checked.
When an update succeeds, the record it replaces is the first one with the
given id; its new password hash is `generateHashedPassword` of the supplied
password when that is not empty, and the old hash when it is empty; and the
same update succeeds with any other password in the field, of whatever
length. -/
theorem update_password_rule (s : State) (userId : Nat) (form : UpdateForm) (rnd : Draws)
    (now : Nat)
    (hs : (handleUpdateUser s userId form rnd now).2 = ⟨"User updated successfully!", "success"⟩) :
    ∃ front u back updated,
      s.users = front ++ u :: back ∧ u.id = userId ∧ (∀ y ∈ front, y.id ≠ userId) ∧
      (handleUpdateUser s userId form rnd now).1.users = front ++ updated :: back ∧
      (form.password ≠ "" → updated.password = generateHashedPassword form.password rnd) ∧
      (form.password = "" → updated.password = u.password) ∧
      ∀ password : String,
        (handleUpdateUser s userId { form with password := password } rnd now).2
          = ⟨"User updated successfully!", "success"⟩ := by
  rcases handleUpdateUser_cases s userId form rnd now with he | he | he |
    ⟨hn, hm, front, u, back, hsplit, hid, hfront, he⟩
  · rw [he] at hs; simp at hs
  · rw [he] at hs; simp at hs
  · rw [he] at hs; simp at hs
  · refine ⟨front, u, back, mergeUpdate form rnd now u, hsplit, hid, hfront, by rw [he], ?_, ?_,
      ?_⟩
    · intro hp
      simp [mergeUpdate, hp]
    · intro hp
      simp [mergeUpdate, hp]
    · intro password
      have hu : u ∈ s.users := by
        rw [hsplit]; exact List.mem_append_right _ (List.mem_cons_self _ _)
      obtain ⟨front2, x, back2, -, -, -, he2⟩ :=
        handleUpdateUser_of_free s userId { form with password := password } rnd now
          ⟨u, hu, hid⟩ hn hm
      rw [he2]

/-- C10 as amended, at the seed state: an update of user 2 with the password
`abc`. -/
theorem update_password_rule_witness :
    ∃ front u back updated,
      seedState.users = front ++ u :: back ∧ u.id = 2 ∧ (∀ y ∈ front, y.id ≠ 2) ∧
      (handleUpdateUser seedState 2
        ⟨"jdoe", "john.doe@example.com", "John Doe", "user", "abc"⟩
        ⟨0, "0.k3j9x0p2q8wzz"⟩ 30).1.users = front ++ updated :: back ∧
      (("abc" : String) ≠ "" →
        updated.password = generateHashedPassword "abc" ⟨0, "0.k3j9x0p2q8wzz"⟩) ∧
      (("abc" : String) = "" → updated.password = u.password) ∧
      ∀ password : String,
        (handleUpdateUser seedState 2
          ⟨"jdoe", "john.doe@example.com", "John Doe", "user", password⟩
          ⟨0, "0.k3j9x0p2q8wzz"⟩ 30).2 = ⟨"User updated successfully!", "success"⟩ :=
  update_password_rule seedState 2
    ⟨"jdoe", "john.doe@example.com", "John Doe", "user", "abc"⟩ ⟨0, "0.k3j9x0p2q8wzz"⟩ 30
    (by decide)

/-! ## Delete -/

/-- C8: in every state reached from the seed state and for every id that some
record of `users` has, `deleteUser` followed by `confirmDelete` removes that
record and nothing else: the list was `front ++ u :: back` with `u` the record
of that id, it becomes `front ++ back`, no record of that id is left, and the
success toast names the removed user. -/
theorem delete_removes_exactly (ops : List Op) (userId : Nat)
    (h : ∃ u ∈ (run seedState ops).users, u.id = userId) :
    ∃ front u back,
      (run seedState ops).users = front ++ u :: back ∧ u.id = userId ∧
      (confirmDelete (deleteUser (run seedState ops) userId)).1.users = front ++ back ∧
      (∀ w ∈ (confirmDelete (deleteUser (run seedState ops) userId)).1.users,
        w.id ≠ userId) ∧
      (confirmDelete (deleteUser (run seedState ops) userId)).2
        = some ⟨"User \"" ++ u.username ++ "\" deleted successfully!", "success"⟩ := by
  have hinv := inv_run inv_seedState ops
  have hpos : 0 < userId := by
    obtain ⟨u, hu, hid⟩ := h
    rw [← hid]; exact (hinv.2.1 u hu).1
  have htruthy : truthy (some userId) = true := by
    simp [truthy]; omega
  obtain ⟨front, x, back, hsplit, hid, -, he⟩ :=
    confirmDeleteAfterDelay_of_mem
      (s := { run seedState ops with currentDeleteUserId := some userId })
      (by
        obtain ⟨u, hu, hid⟩ := h
        exact ⟨u, hu, by rw [hid]⟩)
  have hid' : x.id = userId := by simpa using hid
  have hconfirm : confirmDelete (deleteUser (run seedState ops) userId) =
      ({ run seedState ops with users := front ++ back, currentDeleteUserId := none },
        some ⟨"User \"" ++ x.username ++ "\" deleted successfully!", "success"⟩) := by
    rw [deleteUser_of_mem h]
    unfold confirmDelete
    rw [if_pos htruthy, he]
  have hp := hinv.1
  change (run seedState ops).users = front ++ x :: back at hsplit
  rw [hsplit, List.pairwise_append, List.pairwise_cons] at hp
  refine ⟨front, x, back, hsplit, hid', by rw [hconfirm], ?_, by rw [hconfirm]⟩
  rw [hconfirm]
  intro w hw
  have hw' : w ∈ front ++ back := hw
  rw [← hid']
  rcases List.mem_append.1 hw' with hw1 | hw1
  · exact (hp.2.2 w hw1 x (List.mem_cons_self _ _)).1
  · exact fun hc => (hp.2.1.1 w hw1).1 hc.symm

/-- C8 at the seed state: deleting user 2 leaves users 1, 3 and 4 in that
order. -/
theorem delete_removes_exactly_witness :
    (∃ u ∈ (run seedState []).users, u.id = 2) ∧
    ∃ front u back,
      (run seedState []).users = front ++ u :: back ∧ u.id = 2 ∧
      (confirmDelete (deleteUser (run seedState []) 2)).1.users = front ++ back ∧
      (∀ w ∈ (confirmDelete (deleteUser (run seedState []) 2)).1.users, w.id ≠ 2) ∧
      (confirmDelete (deleteUser (run seedState []) 2)).2
        = some ⟨"User \"" ++ u.username ++ "\" deleted successfully!", "success"⟩ :=
  ⟨by decide, delete_removes_exactly [] 2 (by decide)⟩

/-- C9, refuted as stated: at the seed state `deleteUser(999)` changes nothing
and `confirmDelete` after it shows no toast, so no error reaches the caller. -/
theorem delete_absent_is_silent :
    (∀ u ∈ seedState.users, u.id ≠ 999) ∧
    deleteUser seedState 999 = seedState ∧
    confirmDelete (deleteUser seedState 999) = (seedState, none) := by
  decide

/-- C9 as amended: in any state and for any id that no record of `users` has,
`deleteUser` leaves the whole state as it was and signals nothing; when no
delete was pending, `confirmDelete` after it also leaves the state as it was
and shows no toast. -/
theorem delete_absent_no_op (s : State) (userId : Nat)
    (h : ∀ u ∈ s.users, u.id ≠ userId) :
    deleteUser s userId = s ∧
    (s.currentDeleteUserId = none → confirmDelete (deleteUser s userId) = (s, none)) := by
  refine ⟨deleteUser_of_absent h, ?_⟩
  intro hnone
  rw [deleteUser_of_absent h]
  simp [confirmDelete, hnone, truthy]

/-- C9 as amended, at the seed state with the id 999. -/
theorem delete_absent_no_op_witness :
    (∀ u ∈ seedState.users, u.id ≠ 999) ∧
    deleteUser seedState 999 = seedState ∧
    (seedState.currentDeleteUserId = none →
      confirmDelete (deleteUser seedState 999) = (seedState, none)) :=
  ⟨by decide, delete_absent_no_op seedState 999 (by decide)⟩

/-! ## Password hashing simulator -/

/-- C11, refuted as stated: when the first draw picks the `$bcrypt$2b$12$` tag
and the second draw is 0.5, whose base-36 text is `0.i`,
`generateHashedPassword` returns `$bcrypt$2b$12$i`, which is the raw password
when the raw password is that very string. -/
theorem hash_can_equal_raw_password :
    generateHashedPassword "$bcrypt$2b$12$i" ⟨0, "0.i"⟩ = "$bcrypt$2b$12$i" := by
  decide

/-- C11 as amended: for every raw password and every outcome of the two
draws, `generateHashedPassword` returns a string that is not empty: it is the
tag picked by the first draw, `$bcrypt$2b$12$` for index 0 and
`$argon2id$v=19$m=65536,t=3,p=2$` for index 1, followed by the at most 12
characters that come after the first two in the text of the second draw. It
differs from the raw password whenever the raw password is not one of the two
tags followed by at most 12 characters. -/
theorem hash_nonempty_and_differs (password : String) (rnd : Draws) :
    generateHashedPassword password rnd ≠ "" ∧
    (rnd.pick = 0 → generateHashedPassword password rnd
      = "$bcrypt$2b$12$" ++ String.mk ((rnd.text.data.drop 2).take 12)) ∧
    (rnd.pick = 1 → generateHashedPassword password rnd
      = "$argon2id$v=19$m=65536,t=3,p=2$" ++ String.mk ((rnd.text.data.drop 2).take 12)) ∧
    ((rnd.text.data.drop 2).take 12).length ≤ 12 ∧
    ((∀ a ∈ algorithms, a.data.isPrefixOf password.data = true →
        a.data.length + 12 < password.data.length) →
      generateHashedPassword password rnd ≠ password) := by
  have hdata := generateHashedPassword_data password rnd
  have hmem := algorithm_mem rnd
  refine ⟨?_, ?_, ?_, List.length_take_le _ _, ?_⟩
  · intro hc
    rw [hc] at hdata
    have hnil : (algorithms.getD rnd.pick.val "").data = [] :=
      (List.append_eq_nil.1 hdata.symm).1
    exact algorithm_ne_empty hmem hnil
  · intro hp
    simp [generateHashedPassword, substr, algorithms, hp]
  · intro hp
    simp [generateHashedPassword, substr, algorithms, hp]
  · intro hno hc
    rw [hc] at hdata
    have hpre : (algorithms.getD rnd.pick.val "").data <+: password.data :=
      ⟨_, hdata.symm⟩
    have hlong := hno _ hmem (List.isPrefixOf_iff_prefix.2 hpre)
    have hlen := congrArg List.length hdata
    rw [List.length_append] at hlen
    have htake : (substr rnd.text 2 12).data.length ≤ 12 := by
      simp only [substr]
      exact List.length_take_le _ _
    omega

/-- C11 as amended, for a raw password made of the first tag and 13 more
characters, with the draws that pick the first tag and give the text `0.i`
of 0.5: the output is `$bcrypt$2b$12$i` and differs from the raw password. -/
theorem hash_nonempty_and_differs_witness :
    (∀ a ∈ algorithms, a.data.isPrefixOf ("$bcrypt$2b$12$abcdefghijklm" : String).data = true →
        a.data.length + 12 < ("$bcrypt$2b$12$abcdefghijklm" : String).data.length) ∧
    generateHashedPassword "$bcrypt$2b$12$abcdefghijklm" ⟨0, "0.i"⟩ ≠ "" ∧
    generateHashedPassword "$bcrypt$2b$12$abcdefghijklm" ⟨0, "0.i"⟩
      = "$bcrypt$2b$12$" ++ String.mk ((("0.i" : String).data.drop 2).take 12) ∧
    generateHashedPassword "$bcrypt$2b$12$abcdefghijklm" ⟨0, "0.i"⟩
      ≠ "$bcrypt$2b$12$abcdefghijklm" :=
  ⟨by decide,
   (hash_nonempty_and_differs "$bcrypt$2b$12$abcdefghijklm" ⟨0, "0.i"⟩).1,
   (hash_nonempty_and_differs "$bcrypt$2b$12$abcdefghijklm" ⟨0, "0.i"⟩).2.1 rfl,
   (hash_nonempty_and_differs "$bcrypt$2b$12$abcdefghijklm" ⟨0, "0.i"⟩).2.2.2.2 (by decide)⟩

/-! ## Insertion order -/

/-- C12: in any state, a create that ends with a success toast yields the
previous `users` list with the record built from the form appended at the end,
and an update that ends with a success toast yields a list with the same
sequence of ids: the list was `front ++ u :: back` with `u` the first record
of the given id, and it becomes `front ++ updated :: back` with `updated` of
the same id, so every other record keeps its place and its content. -/
theorem insertion_order_kept (s : State) (form : AddForm) (userId : Nat)
    (uform : UpdateForm) (rnd : Draws) (now1 now2 now : Nat) :
    ((handleAddUser s form rnd now1 now2).2.type = "success" →
      (handleAddUser s form rnd now1 now2).1.users
        = s.users ++ [newUser s form rnd now1 now2]) ∧
    ((handleUpdateUser s userId uform rnd now).2.type = "success" →
      (handleUpdateUser s userId uform rnd now).1.users.map (fun u => u.id)
        = s.users.map (fun u => u.id) ∧
      ∃ front u back updated,
        s.users = front ++ u :: back ∧ u.id = userId ∧ (∀ y ∈ front, y.id ≠ userId) ∧
        (handleUpdateUser s userId uform rnd now).1.users = front ++ updated :: back ∧
        updated.id = userId) := by
  have hne : ("error" : String) ≠ "success" := by decide
  refine ⟨?_, ?_⟩
  · intro hs
    rcases handleAddUser_cases s form rnd now1 now2 with ⟨-, he⟩ | ⟨-, he⟩ | ⟨-, -, he⟩
    · rw [he] at hs; exact absurd hs hne
    · rw [he] at hs; exact absurd hs hne
    · rw [he]
  · intro hs
    rcases handleUpdateUser_cases s userId uform rnd now with he | he | he |
      ⟨-, -, front, u, back, hsplit, hid, hfront, he⟩
    · rw [he] at hs; exact absurd hs hne
    · rw [he] at hs; exact absurd hs hne
    · rw [he] at hs; exact absurd hs hne
    · rw [he]
      refine ⟨?_, front, u, back, mergeUpdate uform rnd now u, hsplit, hid, hfront, rfl, hid⟩
      show (front ++ mergeUpdate uform rnd now u :: back).map (fun u => u.id)
        = s.users.map (fun u => u.id)
      rw [hsplit]
      simp [mergeUpdate]

/-- C12 at the seed state: creating `tmp` puts it after the four seed users,
and renaming user 2 leaves the ids in the order 1, 2, 3, 4. -/
theorem insertion_order_kept_witness :
    (handleAddUser seedState tmpForm ⟨0, "0.abc"⟩ 40 41).1.users
      = seedState.users ++ [newUser seedState tmpForm ⟨0, "0.abc"⟩ 40 41] ∧
    (handleUpdateUser seedState 2
        ⟨"jdoe", "john.doe@example.com", "Johnny Doe", "user", ""⟩ ⟨0, "0.abc"⟩
        42).1.users.map (fun u => u.id) = [1, 2, 3, 4] :=
  ⟨(insertion_order_kept seedState tmpForm 2
      ⟨"jdoe", "john.doe@example.com", "Johnny Doe", "user", ""⟩ ⟨0, "0.abc"⟩ 40 41 42).1
      (by decide),
   ((insertion_order_kept seedState tmpForm 2
      ⟨"jdoe", "john.doe@example.com", "Johnny Doe", "user", ""⟩ ⟨0, "0.abc"⟩ 40 41 42).2
      (by decide)).1⟩

end UserCrud
